import Mathlib

/-!
Shallow embedding of the dataset-preparation pipeline in image_export.py.

The program exports multi-view container ("HIF") files to JPEG images,
deterministically splits the exported pool into train/test/discard,
classifies an annotated corpus into normal/abnormal buckets, rasterizes
bounding-box masks, and copies or moves files between directories.

Modelling conventions:
* Machine integers are ℤ / ℕ; the fractional split parameters are ℚ with
  Python int() truncation modelled as the natural floor (all evaluated
  instances use dyadic values on which Python float arithmetic is exact).
* The filesystem is an association list from path strings to file contents;
  directory reads, copies and removals are explicit state passing, and the
  effectful engines additionally return the list of I/O events performed.
* Fallible code returns Except; an error value carries the filesystem state
  at the moment the exception escapes.
-/

/-- Does the first character list occur at the head of the second one
(helper for the Python substring test). -/
def leadEq : List Char → List Char → Bool
  | [], _ => true
  | _ :: _, [] => false
  | a :: as, b :: bs => a == b && leadEq as bs

/-- Python substring containment: needle in hay, on character lists. -/
def pyInStr (needle : List Char) : List Char → Bool
  | [] => leadEq needle []
  | b :: bs => leadEq needle (b :: bs) || pyInStr needle bs

/-- os.path.join for the two-component uses in the source. -/
def pjoin (d f : String) : String := d ++ "/" ++ f

mutual
/-- A directory on disk as os.walk sees it: its plain file names and its
subdirectories. -/
inductive FSDir : Type where
  | mk : List String → FSEntries → FSDir
/-- The subdirectory list of a directory: each entry is a name plus subtree. -/
inductive FSEntries : Type where
  | nil : FSEntries
  | cons : String → FSDir → FSEntries → FSEntries
end

mutual
/-- Body of crawl on an existing directory: os.walk visits the directory
itself first, where crawl yields the files whose name ends with the given
suffix, and then recurses into each subdirectory in order (top-down walk). -/
def walkDir (ftype : String) : String → FSDir → List String
  | path, FSDir.mk files subs =>
      (files.filter (fun n => n.endsWith ftype)).map (fun n => pjoin path n) ++
        walkSubs ftype path subs
/-- Walk of the subdirectory list, depth-first in list order. -/
def walkSubs (ftype : String) : String → FSEntries → List String
  | _, FSEntries.nil => []
  | path, FSEntries.cons name d rest =>
      walkDir ftype (pjoin path name) d ++ walkSubs ftype path rest
end

/-- The error the specification assigns to the crawler on a missing root. -/
inductive CrawlErr : Type where
  | notFound
deriving DecidableEq

/-- crawl(root, file_type) from the source.  The root argument is none when
the root directory does not exist on the filesystem.  The source calls
os.walk with the default onerror=None, which silently swallows the scandir
error raised for a missing root, so the generator yields nothing and no
exception ever reaches the caller of crawl. -/
def crawl (root : Option FSDir) (rootPath ftype : String) : Except CrawlErr (List String) :=
  match root with
  | none => Except.ok []
  | some d => Except.ok (walkDir ftype rootPath d)

/-- One raster frame: height, width, and a pixel lookup (the channel axis is
abstracted into the pixel value). -/
structure Img where
  H : ℕ
  W : ℕ
  pix : ℕ → ℕ → ℕ

/-- Normalization of one Python slice bound for an axis of length n: a
negative index counts from the end, and both directions clamp into [0, n]. -/
def pySliceBound (n : ℕ) (i : ℤ) : ℕ :=
  if i < 0 then ((n : ℤ) + i).toNat else min i.toNat n

/-- center_crop(img, h, w) from the source: x = W // 2 - w // 2,
y = H // 2 - h // 2, result img[y : y + h, x : x + w] under Python slice
semantics.  All divisions have nonnegative operands, so Python floor
division coincides with ℤ division here. -/
def center_crop (img : Img) (h w : ℕ) : Img :=
  let x : ℤ := (img.W : ℤ) / 2 - (w : ℤ) / 2
  let y : ℤ := (img.H : ℤ) / 2 - (h : ℤ) / 2
  { H := pySliceBound img.H (y + (h : ℤ)) - pySliceBound img.H y
    W := pySliceBound img.W (x + (w : ℤ)) - pySliceBound img.W x
    pix := fun r c => img.pix (pySliceBound img.H y + r) (pySliceBound img.W x + c) }

/-- One bounding box with integer pixel coordinates, as parsed from an
object entry of an annotation file. -/
structure Rect where
  xmin : ℤ
  ymin : ℤ
  xmax : ℤ
  ymax : ℤ
deriving DecidableEq

/-- PIL ImageDraw.rectangle(bbox, fill=255): paints value 255 on every pixel
with xmin ≤ x ≤ xmax and ymin ≤ y ≤ ymax — the filled box is inclusive of
BOTH corner points — over the previous mask contents. -/
def draw_rectangle (mask : ℤ → ℤ → ℕ) (r : Rect) : ℤ → ℤ → ℕ :=
  fun x y => if r.xmin ≤ x ∧ x ≤ r.xmax ∧ r.ymin ≤ y ∧ y ≤ r.ymax then 255 else mask x y

/-- generate_mask_from_bbox(bboxes, image_size) from the source: start from
the all-zero single-channel canvas (Image.new "L" size 0) and draw each box
with fill 255 in list order.  The pixel map is a total function on ℤ × ℤ;
the claims only inspect pixels inside the canvas, where the PIL clipping
behaviour is invisible. -/
def generate_mask_from_bbox (bboxes : List Rect) : ℤ → ℤ → ℕ :=
  bboxes.foldl draw_rectangle (fun _ _ => 0)

/-- Claim C4 counterexample: crawling a nonexistent root returns the empty
path sequence normally; no NotFoundError value is produced, contradicting
the claim that the error propagates to the caller. -/
theorem crawl_missing_root_cex :
    crawl none "/missing" ".hif" = Except.ok [] ∧
      crawl none "/missing" ".hif" ≠ Except.error CrawlErr.notFound := by
  constructor
  · rfl
  · intro h
    simp [crawl] at h

/-- Claim C4 (amended): for every root path that does not exist on the
filesystem, crawl yields the empty sequence of paths and raises nothing
(os.walk is invoked with the default onerror=None, which suppresses the
scandir error), rather than failing with NotFoundError. -/
theorem crawl_missing_root_empty (p ftype : String) :
    crawl none p ftype = Except.ok [] := rfl

/-- Claim C7 counterexample: on a 10×10 frame, center-cropping to 590×440
returns a 10-row window (Python slices clamp), not a window of exactly 590
rows as the claim states for every frame size. -/
theorem center_crop_small_cex :
    (center_crop ⟨10, 10, fun _ _ => 0⟩ 590 440).H = 10 ∧ (10 : ℕ) ≠ 590 := by
  constructor
  · decide
  · decide

/-- Claim C7 (amended): for every frame with H ≥ 590 and W ≥ 440 (the
documented precondition of center_crop is that the crop fits inside the
frame), center-cropping to height 590 and width 440 returns a window of
exactly 590 rows and 440 columns whose top-left corner sits at row
H // 2 - 295 and column W // 2 - 220 of the original frame. -/
theorem center_crop_spec (img : Img) (hH : 590 ≤ img.H) (hW : 440 ≤ img.W) :
    (center_crop img 590 440).H = 590 ∧ (center_crop img 590 440).W = 440 ∧
      ∀ r c, (center_crop img 590 440).pix r c =
        img.pix (img.H / 2 - 295 + r) (img.W / 2 - 220 + c) := by
  have ey : pySliceBound img.H ((img.H : ℤ) / 2 - ((590 : ℕ) : ℤ) / 2) = img.H / 2 - 295 := by
    simp only [pySliceBound]
    split_ifs with h <;> omega
  have ey2 : pySliceBound img.H (((img.H : ℤ) / 2 - ((590 : ℕ) : ℤ) / 2) + ((590 : ℕ) : ℤ)) =
      img.H / 2 + 295 := by
    simp only [pySliceBound]
    split_ifs with h <;> omega
  have ex : pySliceBound img.W ((img.W : ℤ) / 2 - ((440 : ℕ) : ℤ) / 2) = img.W / 2 - 220 := by
    simp only [pySliceBound]
    split_ifs with h <;> omega
  have ex2 : pySliceBound img.W (((img.W : ℤ) / 2 - ((440 : ℕ) : ℤ) / 2) + ((440 : ℕ) : ℤ)) =
      img.W / 2 + 220 := by
    simp only [pySliceBound]
    split_ifs with h <;> omega
  refine ⟨?_, ?_, ?_⟩
  · simp only [center_crop, ey, ey2]
    omega
  · simp only [center_crop, ex, ex2]
    omega
  · intro r c
    simp only [center_crop, ey, ex]

/-- Claim C7 witness: the amended statement evaluated on a concrete
590×440 frame. -/
theorem center_crop_spec_w :
    (center_crop ⟨590, 440, fun _ _ => 0⟩ 590 440).H = 590 :=
  (center_crop_spec ⟨590, 440, fun _ _ => 0⟩ (by decide) (by decide)).1

/-- Claim C3 counterexample: with the single box (10,10,50,50), the pixel
(50, 50) lies outside the half-open region 10 ≤ x < 50, 10 ≤ y < 50 that the
claim asserts is the only painted one, yet its mask value is 255 and not 0:
PIL fills rectangles inclusively of both corner points. -/
theorem mask_inclusive_cex :
    generate_mask_from_bbox [⟨10, 10, 50, 50⟩] 50 50 = 255 ∧
      ¬ ((10 : ℤ) ≤ 50 ∧ (50 : ℤ) < 50) ∧ (255 : ℕ) ≠ 0 := by
  refine ⟨by decide, by decide, by decide⟩

/-- Claim C3 (amended): for the annotation with one bounding box
(10,10,50,50) on a 100×100 canvas, the generated single-channel mask has
value 255 exactly at the pixels with 10 ≤ x ≤ 50 and 10 ≤ y ≤ 50 (the PIL
rectangle fill is inclusive of both endpoints) and value 0 at every other
canvas pixel; the mask starts all 0 and boxes are painted in list order. -/
theorem mask_rasterization (x y : ℤ) (hx0 : 0 ≤ x) (hx1 : x < 100)
    (hy0 : 0 ≤ y) (hy1 : y < 100) :
    generate_mask_from_bbox [⟨10, 10, 50, 50⟩] x y =
      if 10 ≤ x ∧ x ≤ 50 ∧ 10 ≤ y ∧ y ≤ 50 then 255 else 0 := by
  simp [generate_mask_from_bbox, draw_rectangle]

/-- Claim C3 witness: the amended characterization evaluated at the interior
pixel (20, 20). -/
theorem mask_rasterization_w :
    generate_mask_from_bbox [⟨10, 10, 50, 50⟩] 20 20 = 255 := by
  rw [mask_rasterization 20 20 (by decide) (by decide) (by decide) (by decide)]
  decide

/-- Python int() truncation, applied to the nonnegative rational values
produced by the split computations (int truncates toward zero, which is the
floor on nonnegative arguments). -/
def pyIntQ (q : ℚ) : ℕ := Nat.floor q

/-- Result of the shuffle/split engine: the train and test halves of the
kept list plus the list of files the engine will delete from disk. -/
structure SplitOut (α : Type) where
  train : List α
  test : List α
  files2del : List α
deriving DecidableEq

/-- Steps 3 to 5 of split_exported_sd3_hif from the source, on the already
twice-shuffled file list (the two seeded shuffles preceding them are a pure
permutation of the input and contain no branching).  Returns none when the
assert discard > 0 fails.  Note the source reassigns files before computing
files2del, so files2del is sliced out of the already-truncated kept list. -/
def split_exported_sd3_hif {α : Type} (files : List α) (portion discard : ℚ) :
    Option (SplitOut α) :=
  if discard ≤ 0 then none
  else
    let pr :=
      if discard < 1 then
        let files1 := files.take (pyIntQ ((files.length : ℚ) * (1 - discard)))
        (files1, files1.drop (pyIntQ ((files1.length : ℚ) * (1 - discard))))
      else
        let files1 := files.take (pyIntQ discard)
        (files1, files1.drop (pyIntQ discard))
    some { train := pr.1.take (pyIntQ ((pr.1.length : ℚ) * portion))
           test := pr.1.drop (pyIntQ ((pr.1.length : ℚ) * portion))
           files2del := pr.2 }

/-- Claim C1 (code bug, evaluation at the failing input): on the shuffled
list [0..9] with portion = 1/2 and discard = 1/2, keep_count = 5 and the
claim (and the docstring of the source, which says discard names the portion
of the images to discard) requires discarded = [5,6,7,8,9], of length
10 - 5 = 5 and disjoint from train and test.  The source reassigns files
before computing files2del, so the engine instead returns files2del =
[2, 3, 4]: a length-3 suffix of the KEPT list that coincides with the test
half, while the five genuinely discarded elements appear in none of the
three output sequences. -/
theorem split_discard_bug_eval :
    split_exported_sd3_hif [0, 1, 2, 3, 4, 5, 6, 7, 8, 9] (1/2 : ℚ) (1/2 : ℚ) =
        some ⟨[0, 1], [2, 3, 4], [2, 3, 4]⟩ ∧
      ([2, 3, 4] : List ℕ).length ≠ 10 - 5 ∧
      (2 : ℕ) ∈ ([2, 3, 4] : List ℕ) ∧ (2 : ℕ) ∈ ([2, 3, 4] : List ℕ) ∧
      (5 : ℕ) ∉ ([0, 1] : List ℕ) ∧ (5 : ℕ) ∉ ([2, 3, 4] : List ℕ) := by
  refine ⟨?_, by decide, by decide, by decide, by decide, by decide⟩
  have h0 : ¬ ((1/2 : ℚ) ≤ 0) := by norm_num
  have h1 : (1/2 : ℚ) < 1 := by norm_num
  have h2 : ⌊(5 / 2 : ℚ)⌋₊ = 2 := by
    rw [Nat.floor_eq_iff (by norm_num)]
    norm_num
  simp only [split_exported_sd3_hif, if_neg h0, if_pos h1]
  norm_num [pyIntQ]
  rw [h2]
  constructor <;> rfl

/-- A filesystem fragment: an association list from path to file contents. -/
abbrev FS (β : Type) := List (String × β)

/-- os.path.exists / file read on the association-list filesystem. -/
def fsLookup {β : Type} : FS β → String → Option β
  | [], _ => none
  | (p, c) :: rest, q => if p = q then some c else fsLookup rest q

/-- Writing a file: replaces the contents if the path exists, appends it
otherwise (cv2.imwrite and shutil.copyfile overwrite silently). -/
def fsWrite {β : Type} : FS β → String → β → FS β
  | [], p, c => [(p, c)]
  | (q, d) :: rest, p, c => if q = p then (p, c) :: rest else (q, d) :: fsWrite rest p c

/-- os.remove on the association-list filesystem. -/
def fsRemove {β : Type} : FS β → String → FS β
  | [], _ => []
  | (q, d) :: rest, p => if q = p then fsRemove rest p else (q, d) :: fsRemove rest p

/-- Helper for os.listdir: the entry name when the path lies directly under
the directory (path = dir ++ "/" ++ name with no further separator). -/
def stripDir (dir path : String) : Option String :=
  let dl := dir.toList ++ ['/']
  if leadEq dl path.toList then
    let name := path.toList.drop dl.length
    if name.contains '/' then none else some (String.mk name)
  else none

/-- os.listdir(dir): the names of the files lying directly under dir. -/
def fsListdir {β : Type} (fs : FS β) (dir : String) : List String :=
  fs.filterMap (fun e => stripDir dir e.1)

/-- The file I/O events the effectful engines record.  Pure existence
checks (os.path.exists / os.path.isfile) are not recorded. -/
inductive FsEv : Type where
  | listdir (dir : String)
  | copyfile (src dest : String)
  | removefile (p : String)
deriving DecidableEq

/-- copy_files(src, files, dest, delete_at_source, overwrite) from the
source.  fails marks the files whose shutil.copyfile call raises: such an
exception escapes the loop (the source has no try/except around it), and
the error value carries the filesystem at that moment — copyfile only reads
the source file, so the state is unchanged for that entry.  For each name:
skip when the destination already exists and overwrite is not set; skip
when the source path is not a regular file; otherwise copy the bytes and,
only after a successful copy, delete the source when move semantics were
requested.  Returns the recorded events and the final state. -/
def copy_files {β : Type} (fails : String → Bool) (src dest : String)
    (delete_at_source overwrite : Bool) :
    FS β → List String → List FsEv × Except (FS β) (FS β)
  | fs, [] => ([], Except.ok fs)
  | fs, file :: rest =>
    if (fsLookup fs (pjoin dest file)).isSome ∧ ¬ overwrite then
      copy_files fails src dest delete_at_source overwrite fs rest
    else
      match fsLookup fs (pjoin src file) with
      | none => copy_files fails src dest delete_at_source overwrite fs rest
      | some c =>
        if fails file then
          ([FsEv.copyfile (pjoin src file) (pjoin dest file)], Except.error fs)
        else if delete_at_source then
          let r := copy_files fails src dest delete_at_source overwrite
            (fsRemove (fsWrite fs (pjoin dest file) c) (pjoin src file)) rest
          (FsEv.copyfile (pjoin src file) (pjoin dest file) ::
            FsEv.removefile (pjoin src file) :: r.1, r.2)
        else
          let r := copy_files fails src dest delete_at_source overwrite
            (fsWrite fs (pjoin dest file) c) rest
          (FsEv.copyfile (pjoin src file) (pjoin dest file) :: r.1, r.2)

/-- The final loop of split_exported_sd3_hif: delete every discarded file
that still is a regular file under src. -/
def delete_loop (src : String) : FS ℕ → List String → List FsEv × FS ℕ
  | fs, [] => ([], fs)
  | fs, f :: rest =>
    if (fsLookup fs (pjoin src f)).isSome then
      let r := delete_loop src (fsRemove fs (pjoin src f)) rest
      (FsEv.removefile (pjoin src f) :: r.1, r.2)
    else delete_loop src fs rest

/-- split_exported_sd3_hif(src, portion, discard) from the source as a state
transformer on the filesystem, recording I/O events: list the source
directory, shuffle (shf is the pure seeded double-shuffle permutation),
assert discard > 0, slice, move the two halves into train and test
subdirectories, and delete the discarded names.  fails marks copies that
raise, as in copy_files. -/
def split_exported_sd3_hif_fs (shf : List String → List String) (fails : String → Bool)
    (fs : FS ℕ) (src : String) (portion discard : ℚ) :
    List FsEv × Except (FS ℕ) (FS ℕ) :=
  let files := shf (fsListdir fs src)
  if discard ≤ 0 then ([FsEv.listdir src], Except.error fs)
  else
    let pr :=
      if discard < 1 then
        let files1 := files.take (pyIntQ ((files.length : ℚ) * (1 - discard)))
        (files1, files1.drop (pyIntQ ((files1.length : ℚ) * (1 - discard))))
      else
        let files1 := files.take (pyIntQ discard)
        (files1, files1.drop (pyIntQ discard))
    let first_half := pr.1.take (pyIntQ ((pr.1.length : ℚ) * portion))
    let second_half := pr.1.drop (pyIntQ ((pr.1.length : ℚ) * portion))
    let r1 := copy_files fails src (pjoin src "train") true false fs first_half
    match r1.2 with
    | Except.error fs1 => (FsEv.listdir src :: r1.1, Except.error fs1)
    | Except.ok fs1 =>
      let r2 := copy_files fails src (pjoin src "test") true false fs1 second_half
      match r2.2 with
      | Except.error fs2 => (FsEv.listdir src :: (r1.1 ++ r2.1), Except.error fs2)
      | Except.ok fs2 =>
        let r3 := delete_loop src fs2 pr.2
        (FsEv.listdir src :: (r1.1 ++ r2.1 ++ r3.1), Except.ok r3.2)

/-- Contents written by the exporter for one view: view 0 is center-cropped
to 590×440 (the color-order conversion is invisible in the abstracted pixel
values), later views are written untouched, each at
save/basename-index.jpg; cv2.imwrite overwrites silently. -/
def writeViews (save base : String) : FS Img → ℕ → List Img → FS Img
  | fs, _, [] => fs
  | fs, idx, v :: rest =>
    let v1 := if idx = 0 then center_crop v 590 440 else v
    writeViews save base
      (fsWrite fs (pjoin save (base ++ "-" ++ toString idx ++ ".jpg")) v1) (idx + 1) rest

/-- export(hif_path, save_path) from the source: if the view-0 output file
already exists directly under the destination or under its train or test
subdirectory, skip entirely and report zero frames; otherwise decode the
container (views is the decoded frame list, delegated to the external
reader) and write every view. -/
def export_hif (fs : FS Img) (views : List Img) (base save : String) : FS Img × ℕ :=
  if (fsLookup fs (pjoin save (base ++ "-0.jpg"))).isSome then (fs, 0)
  else if (fsLookup fs (pjoin (pjoin save "train") (base ++ "-0.jpg"))).isSome then (fs, 0)
  else if (fsLookup fs (pjoin (pjoin save "test") (base ++ "-0.jpg"))).isSome then (fs, 0)
  else (writeViews save base fs 0 views, views.length)

/-- A constant-valued 1×1 frame, used as concrete file contents. -/
def imgC (v : ℕ) : Img := ⟨1, 1, fun _ _ => v⟩

/-- When every named file already exists at the destination and overwrite is
not set, copy_files skips every entry and returns the filesystem unchanged
with no I/O event. -/
theorem copy_files_skip_all {β : Type} (fails : String → Bool) (src dest : String)
    (del : Bool) (fs : FS β) (files : List String)
    (h : ∀ f ∈ files, (fsLookup fs (pjoin dest f)).isSome = true) :
    copy_files fails src dest del false fs files = ([], Except.ok fs) := by
  induction files with
  | nil => rfl
  | cons a rest ih =>
    have hc : ((fsLookup fs (pjoin dest a)).isSome ∧ ¬ (false : Bool)) :=
      ⟨h a (List.mem_cons_self a rest), by simp⟩
    rw [copy_files, if_pos hc]
    exact ih fun f hf => h f (List.mem_cons_of_mem a hf)

/-- When copy_files raises, the error state still contains the source file
of the failing entry: the source is deleted only after a successful copy. -/
theorem copy_files_error_source_exists {β : Type} (fails : String → Bool) (src dest : String)
    (del ov : Bool) (files : List String) :
    ∀ (fs fs' : FS β), (copy_files fails src dest del ov fs files).2 = Except.error fs' →
      ∃ f ∈ files, fails f = true ∧ (fsLookup fs' (pjoin src f)).isSome = true := by
  induction files with
  | nil =>
    intro fs fs' h
    simp [copy_files] at h
  | cons a rest ih =>
    intro fs fs' h
    rw [copy_files] at h
    by_cases h1 : ((fsLookup fs (pjoin dest a)).isSome ∧ ¬ ov)
    · rw [if_pos h1] at h
      obtain ⟨f, hf, hfa⟩ := ih fs fs' h
      exact ⟨f, List.mem_cons_of_mem a hf, hfa⟩
    · rw [if_neg h1] at h
      rcases hl : fsLookup fs (pjoin src a) with _ | c
      · rw [hl] at h
        dsimp only at h
        obtain ⟨f, hf, hfa⟩ := ih fs fs' h
        exact ⟨f, List.mem_cons_of_mem a hf, hfa⟩
      · rw [hl] at h
        dsimp only at h
        by_cases hfl : fails a
        · rw [if_pos hfl] at h
          dsimp only at h
          injection h with h2
          subst h2
          exact ⟨a, List.mem_cons_self a rest, hfl, by simp [hl]⟩
        · rw [if_neg hfl] at h
          by_cases hdel : del = true
          · rw [if_pos hdel] at h
            dsimp only at h
            obtain ⟨f, hf, hfa⟩ := ih _ fs' h
            exact ⟨f, List.mem_cons_of_mem a hf, hfa⟩
          · rw [if_neg hdel] at h
            dsimp only at h
            obtain ⟨f, hf, hfa⟩ := ih _ fs' h
            exact ⟨f, List.mem_cons_of_mem a hf, hfa⟩

/-- Claim C9: for every file processed by the merge/copy engine, if the
destination file already exists and overwrite is not set the file is
skipped with source and destination unchanged (stated for a batch in which
every entry is in that situation: the call performs no I/O and returns the
input state); and under any semantics, whenever a copy throws partway the
engine propagates the error and the source file of the failing entry still
exists in the resulting state — move semantics delete a source only after
its copy completed successfully. -/
theorem copy_files_skip_and_move_safety {β : Type} (fails : String → Bool)
    (src dest : String) (del ov : Bool) (fs : FS β) (files : List String) :
    ((ov = false → (∀ f ∈ files, (fsLookup fs (pjoin dest f)).isSome = true) →
        copy_files fails src dest del ov fs files = ([], Except.ok fs)) ∧
      ∀ fs', (copy_files fails src dest del ov fs files).2 = Except.error fs' →
        ∃ f ∈ files, fails f = true ∧ (fsLookup fs' (pjoin src f)).isSome = true) := by
  constructor
  · rintro rfl h
    exact copy_files_skip_all fails src dest del fs files h
  · exact copy_files_error_source_exists fails src dest del ov files fs

/-- Claim C9 witness: the skip guarantee evaluated on a concrete one-file
batch whose destination already exists. -/
theorem copy_files_skip_and_move_safety_w :
    copy_files (fun _ => true) "s" "d" true false [("d/a", (5 : ℕ))] ["a"] =
      ([], Except.ok [("d/a", (5 : ℕ))]) :=
  (copy_files_skip_and_move_safety (fun _ => true) "s" "d" true false
      [("d/a", 5)] ["a"]).1 rfl
    (by
      intro f hf
      rw [List.mem_singleton] at hf
      subst hf
      rfl)

/-- Claim C6 counterexample: with discard = 0 the engine does fail with the
assertion error, but only AFTER performing file I/O: the trace of I/O events
preceding the failure is [listdir src] — the source directory listing read
by os.listdir — and not the empty trace the claim requires when it says the
failure is raised before any file I/O. -/
theorem split_precondition_io_cex :
    (split_exported_sd3_hif_fs id (fun _ => false) [("s/a.jpg", 1)] "s" (4/5) 0).1 =
        [FsEv.listdir "s"] ∧
      [FsEv.listdir "s"] ≠ ([] : List FsEv) ∧
      (split_exported_sd3_hif_fs id (fun _ => false) [("s/a.jpg", 1)] "s" (4/5) 0).2 =
        Except.error [("s/a.jpg", 1)] := by
  have h : (0 : ℚ) ≤ 0 := le_refl 0
  refine ⟨?_, by simp, ?_⟩ <;> simp only [split_exported_sd3_hif_fs, if_pos h]

/-- Claim C6 (amended): calling the shuffle/split engine with discard ≤ 0
(in particular discard = 0) fails fast with the assertion error; the failure
occurs after the single os.listdir read of the source directory but before
any copy or removal, so the filesystem — in particular the source
directory — is returned unmodified. -/
theorem split_precondition_early (shf : List String → List String) (fails : String → Bool)
    (fs : FS ℕ) (src : String) (portion discard : ℚ) (h : discard ≤ 0) :
    split_exported_sd3_hif_fs shf fails fs src portion discard =
      ([FsEv.listdir src], Except.error fs) := by
  simp only [split_exported_sd3_hif_fs, if_pos h]

/-- Claim C6 witness: the amended statement evaluated at a concrete state
and discard = 0. -/
theorem split_precondition_early_w :
    split_exported_sd3_hif_fs id (fun _ => false) [("q/b.jpg", 2)] "q" (1/2) 0 =
      ([FsEv.listdir "q"], Except.error [("q/b.jpg", 2)]) :=
  split_precondition_early id (fun _ => false) [("q/b.jpg", 2)] "q" (1/2) 0 (le_refl 0)

/-- Claim C5 counterexample: the destination already holds a view-1 export
a.hif-1.jpg (contents 7) but no view-0 sentinel, so the idempotency check
passes and the exporter rewrites every view: after the call the file
a.hif-1.jpg holds the newly decoded contents 9, not its previous contents —
an existing file matching the naming pattern was overwritten. -/
theorem export_overwrites_view1_cex :
    ((fsLookup (export_hif [("d/a.hif-1.jpg", imgC 7)] [imgC 5, imgC 9] "a.hif" "d").1
        "d/a.hif-1.jpg").map (fun i => i.pix 0 0)) = some 9 ∧
      ((fsLookup [("d/a.hif-1.jpg", imgC 7)] "d/a.hif-1.jpg").map (fun i => i.pix 0 0)) =
        some 7 ∧ (9 : ℕ) ≠ 7 := by
  refine ⟨?_, rfl, by decide⟩
  rfl

/-- Claim C5 (amended): the exporter never overwrites anything when the
view-0 file basename-0.jpg already exists directly under the destination or
under its train or test subdirectory: it then skips entirely, reports zero
frames and leaves the filesystem unchanged.  When that sentinel is absent,
exported files of other view indices may be overwritten. -/
theorem export_skip_existing (fs : FS Img) (views : List Img) (base save : String)
    (h : (fsLookup fs (pjoin save (base ++ "-0.jpg"))).isSome = true ∨
         (fsLookup fs (pjoin (pjoin save "train") (base ++ "-0.jpg"))).isSome = true ∨
         (fsLookup fs (pjoin (pjoin save "test") (base ++ "-0.jpg"))).isSome = true) :
    export_hif fs views base save = (fs, 0) := by
  rw [export_hif]
  split_ifs with h1 h2 h3
  · rfl
  · rfl
  · rfl
  · tauto

/-- Claim C5 witness: the skip guarantee evaluated on a concrete state that
already holds the view-0 sentinel. -/
theorem export_skip_existing_w :
    export_hif [("d/b.hif-0.jpg", imgC 3)] [imgC 4] "b.hif" "d" =
      ([("d/b.hif-0.jpg", imgC 3)], 0) :=
  export_skip_existing _ _ _ _ (Or.inl rfl)

/-- A class-to-file-list mapping, the defaultdict(list) of classify_files. -/
abbrev Bucket := String → List String

/-- Append file to the bucket of every key in keys: the inner loops of
classify_files iterate over the distinct members of the unique class set
and append the file to each selected key. -/
def bucketAdd (b : Bucket) (keys : List String) (file : String) : Bucket :=
  fun k => if k ∈ keys then b k ++ [file] else b k

/-- The loop of classify_files from the source.  Each input file is paired
with the class-name list of its parsed annotation objects (the name fields
parse_voc_xml extracts); unique_cls is the set of those names.  When some
anomaly class belongs to unique_cls (exact membership), the file is
appended to the abnormal bucket of every unique class that is an anomaly
class; otherwise it is appended to the normal bucket of every unique
class. -/
def classify_go (anomaly : List String) :
    Bucket → Bucket → List (String × List String) → Bucket × Bucket
  | nrm, abn, [] => (nrm, abn)
  | nrm, abn, (file, classes) :: rest =>
    let u := classes.dedup
    if ∃ a ∈ anomaly, a ∈ u then
      classify_go anomaly nrm
        (bucketAdd abn (u.filter (fun c => decide (c ∈ anomaly))) file) rest
    else
      classify_go anomaly (bucketAdd nrm u file) abn rest

/-- classify_files(xml_dir, files, anomaly_classes) from the source, on
files already paired with their parsed class lists: returns the
normal-bucket and abnormal-bucket mappings, both starting empty. -/
def classify_files (files : List (String × List String)) (anomaly : List String) :
    Bucket × Bucket :=
  classify_go anomaly (fun _ => []) (fun _ => []) files

/-- Membership in a bucket after bucketAdd. -/
theorem mem_bucketAdd (b : Bucket) (keys : List String) (file k f : String) :
    f ∈ bucketAdd b keys file k ↔ f ∈ b k ∨ (k ∈ keys ∧ f = file) := by
  rw [bucketAdd]
  split_ifs with h
  · simp [h]
  · simp [h]

/-- Membership in an abnormal bucket of the classifier loop: the file was
already there, or it appears in the remaining input with a class list
containing the key, the key being an anomaly class. -/
theorem mem_classify_go_abn (anomaly : List String) (l : List (String × List String)) :
    ∀ (nrm abn : Bucket) (k f : String),
      f ∈ (classify_go anomaly nrm abn l).2 k ↔
        f ∈ abn k ∨ ∃ cs, (f, cs) ∈ l ∧ k ∈ cs ∧ k ∈ anomaly := by
  induction l with
  | nil =>
    intro nrm abn k f
    simp [classify_go]
  | cons hd tl ih =>
    intro nrm abn k f
    obtain ⟨file, classes⟩ := hd
    rw [classify_go]
    by_cases hc : ∃ a ∈ anomaly, a ∈ classes.dedup
    · rw [if_pos hc, ih, mem_bucketAdd]
      have hkeys : k ∈ classes.dedup.filter (fun c => decide (c ∈ anomaly)) ↔
          (k ∈ classes ∧ k ∈ anomaly) := by
        simp [List.mem_filter, List.mem_dedup]
      rw [hkeys]
      constructor
      · rintro ((hb | ⟨⟨hkc, hka⟩, rfl⟩) | ⟨cs, hcs, hk, hka⟩)
        · exact Or.inl hb
        · exact Or.inr ⟨classes, List.mem_cons_self _ _, hkc, hka⟩
        · exact Or.inr ⟨cs, List.mem_cons_of_mem _ hcs, hk, hka⟩
      · rintro (hb | ⟨cs, hcs, hk, hka⟩)
        · exact Or.inl (Or.inl hb)
        · rcases List.mem_cons.mp hcs with heq | htl
          · rw [Prod.mk.injEq] at heq
            obtain ⟨rfl, rfl⟩ := heq
            exact Or.inl (Or.inr ⟨⟨hk, hka⟩, rfl⟩)
          · exact Or.inr ⟨cs, htl, hk, hka⟩
    · rw [if_neg hc, ih]
      constructor
      · rintro (hb | ⟨cs, hcs, hk, hka⟩)
        · exact Or.inl hb
        · exact Or.inr ⟨cs, List.mem_cons_of_mem _ hcs, hk, hka⟩
      · rintro (hb | ⟨cs, hcs, hk, hka⟩)
        · exact Or.inl hb
        · rcases List.mem_cons.mp hcs with heq | htl
          · rw [Prod.mk.injEq] at heq
            obtain ⟨rfl, rfl⟩ := heq
            exact absurd ⟨k, hka, List.mem_dedup.mpr hk⟩ hc
          · exact Or.inr ⟨cs, htl, hk, hka⟩

/-- Membership in a normal bucket of the classifier loop: the file was
already there, or it appears in the remaining input with a class list
containing the key and meeting no anomaly class. -/
theorem mem_classify_go_nrm (anomaly : List String) (l : List (String × List String)) :
    ∀ (nrm abn : Bucket) (k f : String),
      f ∈ (classify_go anomaly nrm abn l).1 k ↔
        f ∈ nrm k ∨ ∃ cs, (f, cs) ∈ l ∧ k ∈ cs ∧ ¬ ∃ a ∈ anomaly, a ∈ cs := by
  induction l with
  | nil =>
    intro nrm abn k f
    simp [classify_go]
  | cons hd tl ih =>
    intro nrm abn k f
    obtain ⟨file, classes⟩ := hd
    rw [classify_go]
    by_cases hc : ∃ a ∈ anomaly, a ∈ classes.dedup
    · rw [if_pos hc, ih]
      have hcs' : ∃ a ∈ anomaly, a ∈ classes := by
        obtain ⟨a, ha, had⟩ := hc
        exact ⟨a, ha, List.mem_dedup.mp had⟩
      constructor
      · rintro (hb | ⟨cs, hcs, hk, hno⟩)
        · exact Or.inl hb
        · exact Or.inr ⟨cs, List.mem_cons_of_mem _ hcs, hk, hno⟩
      · rintro (hb | ⟨cs, hcs, hk, hno⟩)
        · exact Or.inl hb
        · rcases List.mem_cons.mp hcs with heq | htl
          · rw [Prod.mk.injEq] at heq
            obtain ⟨rfl, rfl⟩ := heq
            exact absurd hcs' hno
          · exact Or.inr ⟨cs, htl, hk, hno⟩
    · rw [if_neg hc, ih, mem_bucketAdd]
      have hno' : ¬ ∃ a ∈ anomaly, a ∈ classes := by
        intro hx
        obtain ⟨a, ha, hac⟩ := hx
        exact hc ⟨a, ha, List.mem_dedup.mpr hac⟩
      constructor
      · rintro ((hb | ⟨hkc, rfl⟩) | ⟨cs, hcs, hk, hno⟩)
        · exact Or.inl hb
        · exact Or.inr ⟨classes, List.mem_cons_self _ _, List.mem_dedup.mp hkc, hno'⟩
        · exact Or.inr ⟨cs, List.mem_cons_of_mem _ hcs, hk, hno⟩
      · rintro (hb | ⟨cs, hcs, hk, hno⟩)
        · exact Or.inl (Or.inl hb)
        · rcases List.mem_cons.mp hcs with heq | htl
          · rw [Prod.mk.injEq] at heq
            obtain ⟨rfl, rfl⟩ := heq
            exact Or.inl (Or.inr ⟨List.mem_dedup.mpr hk, rfl⟩)
          · exact Or.inr ⟨cs, htl, hk, hno⟩

/-- In a list of key-value pairs with pairwise distinct keys, a key
determines its value. -/
theorem keys_nodup_unique {β : Type} {l : List (String × β)} (h : (l.map Prod.fst).Nodup)
    {f : String} {cs cs2 : β} (h1 : (f, cs) ∈ l) (h2 : (f, cs2) ∈ l) : cs = cs2 := by
  induction l with
  | nil => cases h1
  | cons hd tl ih =>
    rw [List.map_cons, List.nodup_cons] at h
    rcases List.mem_cons.mp h1 with e1 | m1 <;> rcases List.mem_cons.mp h2 with e2 | m2
    · exact congrArg Prod.snd (e1.trans e2.symm)
    · exfalso
      apply h.1
      rw [← e1]
      show f ∈ tl.map Prod.fst
      exact List.mem_map_of_mem Prod.fst m2
    · exfalso
      apply h.1
      rw [← e2]
      show f ∈ tl.map Prod.fst
      exact List.mem_map_of_mem Prod.fst m1
    · exact ih h.2 m1 m2

/-- Claim C8: in per-class mode, a file whose class set meets the anomaly
set is placed in the abnormal bucket of exactly the matching anomaly
classes (so for classes gun and knife with anomaly set gun: the abnormal
gun bucket only) and in no normal bucket; the characterization for files
whose class set misses the anomaly set is mem_classify_go_nrm: one normal
bucket per observed class name. -/
theorem classify_per_class_buckets (files : List (String × List String))
    (anomaly : List String) (f : String) (cs : List String)
    (hmem : (f, cs) ∈ files) (hnd : (files.map Prod.fst).Nodup)
    (hint : ∃ a ∈ anomaly, a ∈ cs) :
    (∀ k, f ∈ (classify_files files anomaly).2 k ↔ (k ∈ cs ∧ k ∈ anomaly)) ∧
      ∀ k, f ∉ (classify_files files anomaly).1 k := by
  constructor
  · intro k
    rw [classify_files, mem_classify_go_abn]
    constructor
    · rintro (h0 | ⟨cs2, hcs2, hk, hka⟩)
      · cases h0
      · cases keys_nodup_unique hnd hmem hcs2
        exact ⟨hk, hka⟩
    · rintro ⟨hk, hka⟩
      exact Or.inr ⟨cs, hmem, hk, hka⟩
  · intro k hr
    rw [classify_files, mem_classify_go_nrm] at hr
    rcases hr with h0 | ⟨cs2, hcs2, _, hno⟩
    · cases h0
    · cases keys_nodup_unique hnd hmem hcs2
      exact hno hint

/-- Claim C8 witness: a file with classes gun and knife under anomaly set
gun lies in the abnormal gun bucket and not in the normal knife bucket. -/
theorem classify_per_class_buckets_w :
    ("a.jpg" ∈ (classify_files [("a.jpg", ["gun", "knife"])] ["gun"]).2 "gun") ∧
      "a.jpg" ∉ (classify_files [("a.jpg", ["gun", "knife"])] ["gun"]).1 "knife" := by
  have h := classify_per_class_buckets [("a.jpg", ["gun", "knife"])] ["gun"] "a.jpg"
    ["gun", "knife"] (by simp) (by simp) ⟨"gun", by simp, by simp⟩
  exact ⟨(h.1 "gun").mpr ⟨by simp, by simp⟩, h.2 "knife"⟩

/-- Claim C10: in per-class mode, a file whose annotation contains zero
objects — an empty class list — lands in no bucket at all: both inner loops
iterate over the empty unique class set, so neither mapping ever receives
the file, and the per-class copy loops, which only copy files found in
buckets, never see it. -/
theorem classify_no_objects_absent (files : List (String × List String))
    (anomaly : List String) (f : String)
    (hmem : (f, ([] : List String)) ∈ files) (hnd : (files.map Prod.fst).Nodup) :
    ∀ k, f ∉ (classify_files files anomaly).1 k ∧ f ∉ (classify_files files anomaly).2 k := by
  intro k
  constructor
  · intro hr
    rw [classify_files, mem_classify_go_nrm] at hr
    rcases hr with h0 | ⟨cs2, hcs2, hk, _⟩
    · cases h0
    · cases keys_nodup_unique hnd hmem hcs2
      cases hk
  · intro hr
    rw [classify_files, mem_classify_go_abn] at hr
    rcases hr with h0 | ⟨cs2, hcs2, hk, _⟩
    · cases h0
    · cases keys_nodup_unique hnd hmem hcs2
      cases hk

/-- Claim C10 witness: the object-free file e.jpg is absent from both
buckets of the anomaly class, while a.jpg with class gun is processed in
the same run. -/
theorem classify_no_objects_absent_w :
    "e.jpg" ∉ (classify_files [("e.jpg", ([] : List String)), ("a.jpg", ["gun"])] ["gun"]).1
        "gun" ∧
      "e.jpg" ∉ (classify_files [("e.jpg", ([] : List String)), ("a.jpg", ["gun"])] ["gun"]).2
        "gun" :=
  classify_no_objects_absent [("e.jpg", []), ("a.jpg", ["gun"])] ["gun"] "e.jpg"
    (by simp) (by decide) "gun"

/-- One object entry of a parsed VOC record: class name and bounding box. -/
structure VocObject where
  name : String
  bbox : Rect

/-- A parsed VOC record, as parse_voc_xml returns it: image filename,
declared size, and the ordered object list. -/
structure VocAnn where
  filename : String
  width : ℤ
  height : ℤ
  depth : ℤ
  objects : List VocObject

/-- Rendering of one object entry of the VOC file (helper of vocXml). -/
def objXml (o : VocObject) : String :=
  "<object><name>" ++ o.name ++ "</name><bndbox><xmin>" ++ toString o.bbox.xmin ++
    "</xmin><ymin>" ++ toString o.bbox.ymin ++ "</ymin><xmax>" ++ toString o.bbox.xmax ++
    "</xmax><ymax>" ++ toString o.bbox.ymax ++ "</ymax></bndbox></object>"

/-- Modelled from the spec: the raw text of one on-disk VOC-style
description file (section 6 format — filename, size, repeated object
entries with name and bndbox).  copy_sixray_easy reads exactly this text
with fp.read(); the XML parsing itself is delegated to the external
library and is not embedded. -/
def vocXml (a : VocAnn) : String :=
  "<xml><filename>" ++ a.filename ++ "</filename><size><width>" ++ toString a.width ++
    "</width><height>" ++ toString a.height ++ "</height><depth>" ++ toString a.depth ++
    "</depth></size>" ++ String.join (a.objects.map objXml) ++ "</xml>"

/-- The set of unique object class names of a parsed record, as the
classifier computes it from the parsed objects. -/
def uniqueClasses (a : VocAnn) : List String :=
  (a.objects.map VocObject.name).dedup

/-- The per-file segregation loop of copy_sixray_easy in binary mode: each
file is paired with the raw text of its VOC file; the file is labelled
abnormal exactly when some anomaly class name occurs as a SUBSTRING of that
raw text (any(map(lambda x: x in s, anomaly_classes))), otherwise normal.
Returns (normal list, abnormal list), both in encounter order. -/
def copy_sixray_easy_segregate (anomaly : List String) :
    List (String × String) → List String × List String
  | [] => ([], [])
  | (file, s) :: rest =>
    let r := copy_sixray_easy_segregate anomaly rest
    if ∃ c ∈ anomaly, pyInStr c.toList s.toList = true then (r.1, file :: r.2)
    else (file :: r.1, r.2)

/-- Membership in the abnormal output of the binary segregation loop. -/
theorem mem_segregate_abn (anomaly : List String) (l : List (String × String)) (f : String) :
    f ∈ (copy_sixray_easy_segregate anomaly l).2 ↔
      ∃ s, (f, s) ∈ l ∧ ∃ c ∈ anomaly, pyInStr c.toList s.toList = true := by
  induction l with
  | nil => simp [copy_sixray_easy_segregate]
  | cons hd tl ih =>
    obtain ⟨file, s⟩ := hd
    rw [copy_sixray_easy_segregate]
    by_cases hc : ∃ c ∈ anomaly, pyInStr c.toList s.toList = true
    · rw [if_pos hc]
      dsimp only
      rw [List.mem_cons, ih]
      constructor
      · rintro (rfl | ⟨s2, hs2, hc2⟩)
        · exact ⟨s, List.mem_cons_self _ _, hc⟩
        · exact ⟨s2, List.mem_cons_of_mem _ hs2, hc2⟩
      · rintro ⟨s2, hs2, hc2⟩
        rcases List.mem_cons.mp hs2 with heq | htl
        · rw [Prod.mk.injEq] at heq
          exact Or.inl heq.1
        · exact Or.inr ⟨s2, htl, hc2⟩
    · rw [if_neg hc]
      dsimp only
      rw [ih]
      constructor
      · rintro ⟨s2, hs2, hc2⟩
        exact ⟨s2, List.mem_cons_of_mem _ hs2, hc2⟩
      · rintro ⟨s2, hs2, hc2⟩
        rcases List.mem_cons.mp hs2 with heq | htl
        · rw [Prod.mk.injEq] at heq
          rw [heq.2] at hc2
          exact absurd hc2 hc
        · exact ⟨s2, htl, hc2⟩

/-- Membership in the normal output of the binary segregation loop. -/
theorem mem_segregate_nrm (anomaly : List String) (l : List (String × String)) (f : String) :
    f ∈ (copy_sixray_easy_segregate anomaly l).1 ↔
      ∃ s, (f, s) ∈ l ∧ ¬ ∃ c ∈ anomaly, pyInStr c.toList s.toList = true := by
  induction l with
  | nil => simp [copy_sixray_easy_segregate]
  | cons hd tl ih =>
    obtain ⟨file, s⟩ := hd
    rw [copy_sixray_easy_segregate]
    by_cases hc : ∃ c ∈ anomaly, pyInStr c.toList s.toList = true
    · rw [if_pos hc]
      dsimp only
      rw [ih]
      constructor
      · rintro ⟨s2, hs2, hc2⟩
        exact ⟨s2, List.mem_cons_of_mem _ hs2, hc2⟩
      · rintro ⟨s2, hs2, hc2⟩
        rcases List.mem_cons.mp hs2 with heq | htl
        · rw [Prod.mk.injEq] at heq
          rw [heq.2] at hc2
          exact absurd hc hc2
        · exact ⟨s2, htl, hc2⟩
    · rw [if_neg hc]
      dsimp only
      rw [List.mem_cons, ih]
      constructor
      · rintro (rfl | ⟨s2, hs2, hc2⟩)
        · exact ⟨s, List.mem_cons_self _ _, hc⟩
        · exact ⟨s2, List.mem_cons_of_mem _ hs2, hc2⟩
      · rintro ⟨s2, hs2, hc2⟩
        rcases List.mem_cons.mp hs2 with heq | htl
        · rw [Prod.mk.injEq] at heq
          exact Or.inl heq.1
        · exact Or.inr ⟨s2, htl, hc2⟩

/-- Claim C2 (amended): in binary mode every input file maps to exactly one
of the two labels, and the file is labelled abnormal if and only if some
anomaly class name occurs as a substring of the raw text of its VOC file —
substring containment in the whole file text, not intersection of the
extracted unique object class set with the anomaly set. -/
theorem sixray_binary_partition (anomaly : List String) (files : List (String × String))
    (f s : String) (hmem : (f, s) ∈ files) (hnd : (files.map Prod.fst).Nodup) :
    ((f ∈ (copy_sixray_easy_segregate anomaly files).2 ↔
        ∃ c ∈ anomaly, pyInStr c.toList s.toList = true) ∧
      (f ∈ (copy_sixray_easy_segregate anomaly files).1 ↔
        ¬ ∃ c ∈ anomaly, pyInStr c.toList s.toList = true)) := by
  constructor
  · rw [mem_segregate_abn]
    constructor
    · rintro ⟨s2, hs2, hc2⟩
      cases keys_nodup_unique hnd hmem hs2
      exact hc2
    · intro hc
      exact ⟨s, hmem, hc⟩
  · rw [mem_segregate_nrm]
    constructor
    · rintro ⟨s2, hs2, hc2⟩
      cases keys_nodup_unique hnd hmem hs2
      exact hc2
    · intro hc
      exact ⟨s, hmem, hc⟩

/-- Claim C2 witness: a file whose VOC text contains no anomaly class name
as a substring is filed as normal. -/
theorem sixray_binary_partition_w :
    "n.jpg" ∈ (copy_sixray_easy_segregate ["gun"] [("n.jpg", "<name>knife</name>")]).1 := by
  have h := sixray_binary_partition ["gun"] [("n.jpg", "<name>knife</name>")] "n.jpg"
    "<name>knife</name>" (by simp) (by simp)
  exact h.2.mpr (by decide)

/-- The concrete record of the C2 counterexample: its only object class is
handgun, so its unique-class set is disjoint from the anomaly set
containing exactly gun. -/
def annHandgun : VocAnn :=
  { filename := "x.jpg", width := 2, height := 2, depth := 3
    objects := [{ name := "handgun", bbox := ⟨0, 0, 1, 1⟩ }] }

/-- Claim C2 counterexample: the anomaly set is exactly gun and the unique
object class set of the image is exactly handgun, so the claimed
set-intersection rule labels the image normal; but the source tests
substring containment of each anomaly class in the raw file text, gun
occurs inside handgun, and the classifier files the image as abnormal. -/
theorem sixray_substring_cex :
    "x.jpg" ∈ (copy_sixray_easy_segregate ["gun"] [("x.jpg", vocXml annHandgun)]).2 ∧
      uniqueClasses annHandgun = ["handgun"] ∧
      ∀ c ∈ uniqueClasses annHandgun, c ∉ (["gun"] : List String) := by
  refine ⟨?_, by decide, by decide⟩
  decide
